import Mathlib

/-!
Verification development for the GEasy review ingestion and ranking pipeline.

The Python source is shallowly embedded:
* review-page fragments are represented by their text content (a `String`);
* Python floats arising from decimal literals in review text are modelled
  exactly as rationals (`ℚ`);
* the relational store (courses/professors/sections/reviews tables) is a
  record of lists of typed rows, and SQL queries are modelled as list
  transformations.

Rational arithmetic is implemented through kernel-reducible `mkRat`-based
operations (`qadd`, `qsub`, `qmul`, `qdiv`, ...) so that concrete runs can be
checked by `decide`; bridge lemmas identify them with the standard `ℚ`
operations.
-/

namespace GEasy

/-! ### Kernel-reducible rational arithmetic -/

/-- Addition on `ℚ` via `mkRat` (kernel-reducible, equal to `+`). -/
def qadd (a b : ℚ) : ℚ := mkRat (a.num * b.den + b.num * a.den) (a.den * b.den)

/-- Subtraction on `ℚ` via `mkRat` (kernel-reducible, equal to `-`). -/
def qsub (a b : ℚ) : ℚ := mkRat (a.num * b.den - b.num * a.den) (a.den * b.den)

/-- Multiplication on `ℚ` via `mkRat` (kernel-reducible, equal to `*`). -/
def qmul (a b : ℚ) : ℚ := mkRat (a.num * b.num) (a.den * b.den)

/-- Inverse on `ℚ` via `Rat.divInt` (kernel-reducible, equal to `⁻¹`). -/
def qinv (a : ℚ) : ℚ := Rat.divInt a.den a.num

/-- Division on `ℚ` (kernel-reducible, equal to `/`). -/
def qdiv (a b : ℚ) : ℚ := qmul a (qinv b)

/-- Negation on `ℚ` (kernel-reducible, equal to `Neg.neg`). -/
def qneg (a : ℚ) : ℚ := mkRat (-a.num) a.den

/-- Floor of a rational as Euclidean integer division (equal to `⌊·⌋`). -/
def qfloor (a : ℚ) : ℤ := a.num / (a.den : ℤ)

/-- Truncation toward zero, the semantics of Python `int()` on a number. -/
def qtrunc (a : ℚ) : ℤ := a.num.tdiv (a.den : ℤ)

/-- Embedding of a machine integer into `ℚ` (kernel-reducible). -/
def intToQ (n : ℤ) : ℚ := mkRat n 1

/-- Embedding of a count into `ℚ` (kernel-reducible). -/
def natToQ (n : ℕ) : ℚ := mkRat n 1

/-! ### Character classes used by the regular-expression patterns

Python `re` classes restricted to ASCII, which is all the patterns use:
`\s` = the six ASCII whitespace characters, `\d` = ASCII digits,
`\w` = alphanumerics and underscore.  Python `str.strip()` removes the
same whitespace characters from both ends. -/

/-- ASCII whitespace, the characters matched by `\s` (and removed by `strip`). -/
def isSpaceC (c : Char) : Bool :=
  c = ' ' || c = '\t' || c = '\n' || c = '\r' || c = '\x0b' || c = '\x0c'

/-- Word characters, the class `\w` used by the `\b` boundary assertion. -/
def isWordC (c : Char) : Bool := c.isAlphanum || c = '_'

/-- Python `str.strip()`: drop whitespace from both ends. -/
def pyStrip (l : List Char) : List Char :=
  ((l.dropWhile isSpaceC).reverse.dropWhile isSpaceC).reverse

/-- Numeric value of a digit run. -/
def digitsVal (ds : List Char) : ℕ :=
  ds.foldl (fun n c => 10 * n + (c.toNat - 48)) 0

/-- Exact value of the decimal literal with integer digits `ip` and
fractional digits `fp`, the value Python's `float()` denotes. -/
def decToRat (ip fp : List Char) : ℚ :=
  mkRat (digitsVal ip * 10 ^ fp.length + digitsVal fp) (10 ^ fp.length)

/-- Whitespace skip for `\s*`: greedy (safe here since no continuation of `\s*`
in any pattern can match a whitespace character). -/
def skipSpaces (l : List Char) : List Char := l.dropWhile isSpaceC

/-- Case-insensitive literal match: `key` is given in lowercase; on success
returns the input after the matched prefix. -/
def ciDrop : List Char → List Char → Option (List Char)
  | [], l => some l
  | _ :: _, [] => none
  | k :: ks, c :: cs => if c.toLower = k then ciDrop ks cs else none

/-- Match the group `(\d+(?:\.\d+)?)` at the head of the input and run the
continuation `k` on its value and the remaining input.  The optional
fractional part backtracks: the continuation is tried after the full
decimal first, then after the bare integer part.  (The digit runs
themselves are taken greedily, which is faithful because no continuation
in any pattern of the source can begin with a digit.) -/
def matchNumThen (k : ℚ → List Char → Option α) (l : List Char) : Option α :=
  let ds := l.takeWhile Char.isDigit
  let rest := l.dropWhile Char.isDigit
  if ds.isEmpty then none
  else
    match rest with
    | '.' :: rest2 =>
      let fs := rest2.takeWhile Char.isDigit
      if fs.isEmpty then k (decToRat ds []) rest
      else k (decToRat ds fs) (rest2.dropWhile Char.isDigit) <|> k (decToRat ds []) rest
    | _ => k (decToRat ds []) rest

/-- Semantics of `re.search`: try the position matcher `m` at each start
position from left to right and return the first success. -/
def searchL (m : List Char → Option α) : List Char → Option α
  | [] => none
  | c :: rest => m (c :: rest) <|> searchL m rest

/-- Pattern `(\d+(?:\.\d+)?)\s*/\s*5` at one position. -/
def slash5At (l : List Char) : Option ℚ :=
  matchNumThen (fun v rest =>
    match skipSpaces rest with
    | '/' :: r2 =>
      match skipSpaces r2 with
      | '5' :: _ => some v
      | _ => none
    | _ => none) l

/-- Pattern `(\d+(?:\.\d+)?)\s*out\s*of\s*5` (case-insensitive) at one position. -/
def outOf5At (l : List Char) : Option ℚ :=
  matchNumThen (fun v rest =>
    match ciDrop [ 'o', 'u', 't' ] (skipSpaces rest) with
    | none => none
    | some r1 =>
      match ciDrop [ 'o', 'f' ] (skipSpaces r1) with
      | none => none
      | some r2 =>
        match skipSpaces r2 with
        | '5' :: _ => some v
        | _ => none) l

/-- Pattern `key:?\s*(\d+(?:\.\d+)?)` (case-insensitive) at one position,
used with `rating`, `quality`, `workload` and `difficulty`. -/
def keyNumAt (key : List Char) (l : List Char) : Option ℚ :=
  match ciDrop key l with
  | none => none
  | some r1 =>
    let r2 := match r1 with
      | ':' :: t => t
      | _ => r1
    matchNumThen (fun v _ => some v) (skipSpaces r2)

/-- The lazy tail `.*?(?:workload|difficulty)` (case-insensitive): some later
position must start one of the two words, and `.` does not cross a newline. -/
def lazyWord : List Char → Bool
  | [] => false
  | c :: rest =>
    if (ciDrop [ 'w', 'o', 'r', 'k', 'l', 'o', 'a', 'd' ] (c :: rest)).isSome
        || (ciDrop [ 'd', 'i', 'f', 'f', 'i', 'c', 'u', 'l', 't', 'y' ] (c :: rest)).isSome then
      true
    else if c = '\n' then false
    else lazyWord rest

/-- Pattern `(\d+(?:\.\d+)?)\s*/\s*10.*?(?:workload|difficulty)` at one position. -/
def slash10At (l : List Char) : Option ℚ :=
  matchNumThen (fun v rest =>
    match skipSpaces rest with
    | '/' :: r2 =>
      match skipSpaces r2 with
      | '1' :: '0' :: r3 => if lazyWord r3 then some v else none
      | _ => none
    | _ => none) l

/-- The pattern cascade: results of the ordered pattern list are inspected in
order and the first matched value that passes the range check `lo ≤ v ≤ hi`
wins; an out-of-range match falls through to the next pattern. -/
def cascade (lo hi : ℚ) : List (Option ℚ) → Option ℚ
  | [] => none
  | none :: rest => cascade lo hi rest
  | some v :: rest => if lo ≤ v ∧ v ≤ hi then some v else cascade lo hi rest

/-- The ordered quality patterns of `_parse_review_element`. -/
def qualityPatterns (s : List Char) : List (Option ℚ) :=
  [ searchL slash5At s,
    searchL outOf5At s,
    searchL (keyNumAt [ 'r', 'a', 't', 'i', 'n', 'g' ]) s,
    searchL (keyNumAt [ 'q', 'u', 'a', 'l', 'i', 't', 'y' ]) s ]

/-- Quality extraction: first pattern whose value lies in `[0, 5]`. -/
def extractQuality (s : List Char) : Option ℚ := cascade 0 5 (qualityPatterns s)

/-- The ordered workload patterns of `_parse_review_element`. -/
def workloadPatterns (s : List Char) : List (Option ℚ) :=
  [ searchL (keyNumAt [ 'w', 'o', 'r', 'k', 'l', 'o', 'a', 'd' ]) s,
    searchL (keyNumAt [ 'd', 'i', 'f', 'f', 'i', 'c', 'u', 'l', 't', 'y' ]) s,
    searchL slash10At s ]

/-- Workload extraction: first pattern whose value lies in `[0, 10]`. -/
def extractWorkload (s : List Char) : Option ℚ := cascade 0 10 (workloadPatterns s)

/-- The season alternation `(fall|winter|spring|summer)` (case-insensitive);
on a match, returns the title-cased season and the remaining input. -/
def seasonAt (l : List Char) : Option (String × List Char) :=
  match ciDrop [ 'f', 'a', 'l', 'l' ] l with
  | some r => some ("Fall", r)
  | none =>
    match ciDrop [ 'w', 'i', 'n', 't', 'e', 'r' ] l with
    | some r => some ("Winter", r)
    | none =>
      match ciDrop [ 's', 'p', 'r', 'i', 'n', 'g' ] l with
      | some r => some ("Spring", r)
      | none =>
        match ciDrop [ 's', 'u', 'm', 'm', 'e', 'r' ] l with
        | some r => some ("Summer", r)
        | none => none

/-- Pattern `(fall|winter|spring|summer)\s*(\d{4})` at one position. -/
def quarterAt (l : List Char) : Option (String × ℤ) :=
  match seasonAt l with
  | none => none
  | some (name, rest) =>
    match skipSpaces rest with
    | a :: b :: c :: d :: _ =>
      if a.isDigit && b.isDigit && c.isDigit && d.isDigit then
        some (name, (digitsVal [ a, b, c, d ] : ℤ))
      else none
    | _ => none

/-- Term/year extraction via `re.search` of the quarter pattern. -/
def extractQuarter (s : List Char) : Option (String × ℤ) := searchL quarterAt s

/-- The `\b` word-boundary assertion between an optional previous character
and an optional next character. -/
def boundary (prev next : Option Char) : Bool :=
  (match prev with
    | none => false
    | some p => isWordC p)
  != (match next with
      | none => false
      | some n => isWordC n)

/-- Grade alternation `([A-F][+-]?|P|NP)` with the trailing `\b`, tried at one
position (case-sensitive).  Alternatives are tried left to right and the
greedy optional `[+-]?` backtracks, exactly as Python's engine does. -/
def gradeAt : List Char → Option String
  | [] => none
  | c :: rest =>
    (if 'A' ≤ c && c ≤ 'F' then
      match rest with
      | d :: rest2 =>
        if (d = '+' || d = '-') && boundary (some d) rest2.head? then
          some (String.mk [ c, d ])
        else if boundary (some c) (some d) then some (String.mk [ c ])
        else none
      | [] => if boundary (some c) none then some (String.mk [ c ]) else none
    else none)
    <|> (if c = 'P' && boundary (some 'P') rest.head? then some "P" else none)
    <|> (match c :: rest with
        | 'N' :: 'P' :: rest2 =>
          if boundary (some 'P') rest2.head? then some "NP" else none
        | _ => none)

/-- Search of `re.search` kind for the grade pattern `\b([A-F][+-]?|P|NP)\b`: the leading
`\b` is checked with the previous character threaded along. -/
def searchGrade : Option Char → List Char → Option String
  | _, [] => none
  | prev, c :: rest =>
    (if boundary prev (some c) then gradeAt (c :: rest) else none)
    <|> searchGrade (some c) rest

/-- Grade extraction. -/
def extractGrade (s : List Char) : Option String := searchGrade none s

/-! ### ReviewRecordBuilder: `_parse_review_element` -/

/-- One review record as assembled by `_parse_review_element`.  A fragment is
represented by its text content, so the review text and the text scanned by
the patterns coincide, as they do in the source for text fragments. -/
structure ReviewData where
  professor : String
  dept : String
  number : String
  quality : ℚ
  workload : ℚ
  text : String
  quarter : String
  year : ℤ
  grade : String
  would_recommend : Option Bool
deriving DecidableEq, Repr

/-- The quality field: extracted value, defaulting to `0` when absent. -/
def qualVal (content : String) : ℚ := (extractQuality content.data).getD 0

/-- The workload field: extracted value, defaulting to `0` when absent. -/
def workVal (content : String) : ℚ := (extractWorkload content.data).getD 0

/-- The text field: `strip()` then truncation to 500 characters. -/
def textVal (content : String) : String := String.mk ((pyStrip content.data).take 500)

/-- The quarter/year fields, defaulting to `("", 2024)` when absent. -/
def quarterVal (content : String) : String × ℤ :=
  (extractQuarter content.data).getD ("", 2024)

/-- The grade field, defaulting to the empty string when absent. -/
def gradeVal (content : String) : String := (extractGrade content.data).getD ""

/-- Builder `_parse_review_element`: build a review record from a fragment, keeping it
only when the extracted quality is positive or the truncated text is longer
than 10 characters. -/
def parseReviewElement (content professor dept number : String) : Option ReviewData :=
  if 0 < qualVal content ∨ 10 < (textVal content).length then
    some { professor := professor, dept := dept, number := number,
           quality := qualVal content, workload := workVal content,
           text := textVal content, quarter := (quarterVal content).1,
           year := (quarterVal content).2, grade := gradeVal content,
           would_recommend := none }
  else none

/-! ### The relational store

Rows of the four tables created by `schema.sql` and populated by the loader
and the scraper: courses(course_id, dept, number, title, ge_area),
professors(prof_id, name), sections(section_id, course_id, prof_id, term,
year), reviews(review_id, section_id, quality, workload, text). -/

/-- A row of the `courses` table. -/
structure Course where
  course_id : ℤ
  dept : String
  number : String
  title : String
  ge_area : String
deriving DecidableEq, Repr

/-- A row of the `professors` table. -/
structure Professor where
  prof_id : ℤ
  name : String
deriving DecidableEq, Repr

/-- A row of the `sections` table. -/
structure Section where
  section_id : ℤ
  course_id : ℤ
  prof_id : ℤ
  term : String
  year : ℤ
deriving DecidableEq, Repr

/-- A row of the `reviews` table. -/
structure Review where
  review_id : ℤ
  section_id : ℤ
  quality : ℤ
  workload : ℤ
  text : String
deriving DecidableEq, Repr

/-- The persistent store: the four tables. -/
structure Store where
  courses : List Course
  professors : List Professor
  sections : List Section
  reviews : List Review
deriving DecidableEq, Repr

/-- The part of a scraped `course_data` dictionary that
`_save_course_to_db` reads. -/
structure CourseData where
  dept : String
  number : String
  title : String
  reviews : List ReviewData
deriving DecidableEq, Repr

/-! ### ReconciliationEngine: `_save_course_to_db` -/

/-- Allocation query `SELECT MAX(id) + 1 FROM t` combined with Python's `... or 1`: `NULL`
(empty table) and a falsy `0` both become `1`. -/
def nextId (ids : List ℤ) : ℤ :=
  match ids.max? with
  | none => 1
  | some m => if m + 1 = 0 then 1 else m + 1

/-- Stored quality: `max(1, min(5, int(quality)))`. -/
def storedQuality (q : ℚ) : ℤ := max 1 (min 5 (qtrunc q))

/-- Stored workload: `max(1, min(10, int(workload) if workload > 0 else 5))`. -/
def storedWorkload (w : ℚ) : ℤ :=
  max 1 (min 10 (if 0 < w then qtrunc w else 5))

/-- The professor cache seeded from the store: Python dict insertion makes
the last row with a given name win, which a first-match lookup sees on the
reversed list. -/
def seedCache (st : Store) : List (String × ℤ) :=
  (st.professors.map fun p => (p.name, p.prof_id)).reverse

/-- Resolve a professor name in the cache: on a hit return the cached id
unchanged; on a miss allocate the next professor id, extend the cache and
stage an insert.  Returns (resolved id, cache, next free id, staged row). -/
def resolveProfessor (cache : List (String × ℤ)) (next : ℤ) (name : String) :
    ℤ × List (String × ℤ) × ℤ × Option Professor :=
  match List.lookup name cache with
  | some pid => (pid, cache, next, none)
  | none => (next, (name, next) :: cache, next + 1, some ⟨next, name⟩)

/-- One insert statement issued against the store, in execution order. -/
inductive Event where
  | courseIns (c : Course)
  | profIns (p : Professor)
  | secIns (s : Section)
  | revIns (r : Review)
deriving DecidableEq, Repr

/-- Mutable state of one `_save_course_to_db` run. -/
structure SaveState where
  cache : List (String × ℤ)
  nextProf : ℤ
  nextSec : ℤ
  nextRev : ℤ
  profsNew : List Professor
  secsNew : List Section
  revsNew : List Review
  trace : List Event
deriving Repr

/-- The body of the per-review loop of `_save_course_to_db`: resolve the
professor (inserting if new), insert a fresh section row, then insert the
review row pointing at that section. -/
def saveStep (cid : ℤ) (acc : SaveState) (r : ReviewData) : SaveState :=
  match resolveProfessor acc.cache acc.nextProf r.professor with
  | (pid, cache1, nextProf1, staged) =>
    let acc1 : SaveState :=
      { acc with
        cache := cache1, nextProf := nextProf1,
        profsNew := acc.profsNew ++ staged.toList,
        trace := acc.trace ++ (staged.toList.map Event.profIns) }
    let sec : Section :=
      { section_id := acc1.nextSec, course_id := cid, prof_id := pid,
        term := r.quarter, year := r.year }
    let rev : Review :=
      { review_id := acc1.nextRev, section_id := acc1.nextSec,
        quality := storedQuality r.quality, workload := storedWorkload r.workload,
        text := String.mk (r.text.data.take 500) }
    { acc1 with
      nextSec := acc1.nextSec + 1, nextRev := acc1.nextRev + 1,
      secsNew := acc1.secsNew ++ [ sec ],
      revsNew := acc1.revsNew ++ [ rev ],
      trace := acc1.trace ++ [ Event.secIns sec, Event.revIns rev ] }

/-- Course resolution at the top of `_save_course_to_db`: reuse the first
matching `(dept, number)` row, otherwise allocate `MAX(course_id)+1 or 1`
and insert. -/
def resolveCourse (st : Store) (cd : CourseData) (area : String) :
    ℤ × List Course :=
  match st.courses.find? (fun c => c.dept = cd.dept && c.number = cd.number) with
  | some c => (c.course_id, [])
  | none =>
    let cid := nextId (st.courses.map (·.course_id))
    (cid, [ { course_id := cid, dept := cd.dept, number := cd.number,
              title := cd.title, ge_area := area } ])

/-- The rows inserted by one `_save_course_to_db` run, plus the full insert
trace in execution order. -/
structure SaveResult where
  newCourses : List Course
  newProfs : List Professor
  newSections : List Section
  newReviews : List Review
  trace : List Event
deriving Repr

/-- Persistence routine `_save_course_to_db`: resolve the course, seed the professor cache and
the three id counters from the store, then process every review of the
scraped course data in order. -/
def saveCourseToDb (st : Store) (cd : CourseData) (area : String) : SaveResult :=
  match resolveCourse st cd area with
  | (cid, newCs) =>
    let init : SaveState :=
      { cache := seedCache st,
        nextProf := nextId (st.professors.map (·.prof_id)),
        nextSec := nextId (st.sections.map (·.section_id)),
        nextRev := nextId (st.reviews.map (·.review_id)),
        profsNew := [], secsNew := [], revsNew := [],
        trace := newCs.map Event.courseIns }
    let fin := cd.reviews.foldl (saveStep cid) init
    { newCourses := newCs, newProfs := fin.profsNew,
      newSections := fin.secsNew, newReviews := fin.revsNew,
      trace := fin.trace }

/-! ### RankingEngine: the `course_stats` query and its fallback -/

/-- Rounding `ROUND(x, 2)` of DuckDB: scale by 100, round half away from zero,
scale back. -/
def roundAway (x : ℚ) : ℤ :=
  if 0 ≤ x then qfloor (qadd x (mkRat 1 2)) else -qfloor (qadd (qneg x) (mkRat 1 2))

/-- Two-decimal rounding as presented by the query's `ROUND(..., 2)`. -/
def round2 (x : ℚ) : ℚ := mkRat (roundAway (qmul x (mkRat 100 1))) 100

/-- Sum of rationals via `qadd` (kernel-reducible, equal to `List.sum`). -/
def qsum (l : List ℚ) : ℚ := l.foldr qadd 0

/-- Mean (`AVG`) of a list of rationals. -/
def qavg (l : List ℚ) : ℚ := qdiv (qsum l) (natToQ l.length)

/-- One joined row of
`courses JOIN sections JOIN professors JOIN reviews` restricted to the
requested GE area. -/
def joinedRows (st : Store) (area : String) : List (Course × Professor × Review) :=
  (st.courses.filter (fun c => c.ge_area = area)).flatMap fun c =>
    (st.sections.filter (fun s => s.course_id = c.course_id)).flatMap fun s =>
      (st.professors.filter (fun p => p.prof_id = s.prof_id)).flatMap fun p =>
        (st.reviews.filter (fun r => r.section_id = s.section_id)).map fun r =>
          (c, p, r)

/-- The `GROUP BY` key: all grouped columns are determined by the course row
plus the professor name. -/
def groupKey (x : Course × Professor × Review) : Course × String := (x.1, x.2.1.name)

/-- The distinct group keys of the joined rows. -/
def groupKeys (rows : List (Course × Professor × Review)) : List (Course × String) :=
  (rows.map groupKey).eraseDups

/-- One `course_stats` group: count, means and the composite score
`avg_quality * 0.7 + (11 - avg_workload) * 0.3`. -/
structure GroupStat where
  course : Course
  professor : String
  review_count : ℕ
  avg_quality : ℚ
  avg_workload : ℚ
  score : ℚ
deriving DecidableEq, Repr

/-- Aggregate one group of the `course_stats` CTE. -/
def statOf (rows : List (Course × Professor × Review)) (k : Course × String) :
    GroupStat :=
  let g := rows.filter (fun x => groupKey x = k)
  let aq := qavg (g.map fun x => intToQ x.2.2.quality)
  let aw := qavg (g.map fun x => intToQ x.2.2.workload)
  { course := k.1, professor := k.2, review_count := g.length,
    avg_quality := aq, avg_workload := aw,
    score := qadd (qmul aq (mkRat 7 10)) (qmul (qsub (mkRat 11 1) aw) (mkRat 3 10)) }

/-- The `course_stats` CTE: one aggregate per (course, professor-name) group. -/
def courseStats (st : Store) (area : String) : List GroupStat :=
  (groupKeys (joinedRows st area)).map (statOf (joinedRows st area))

/-- An output row of either query. -/
structure OutRow where
  course_code : String
  title : String
  professor : String
  review_count : ℕ
  avg_quality : ℚ
  avg_workload : ℚ
  score : ℚ
deriving DecidableEq, Repr

/-- The `SELECT` list of the ranked query: rounded presentation values. -/
def toOutRow (g : GroupStat) : OutRow :=
  { course_code := g.course.dept ++ " " ++ g.course.number,
    title := g.course.title, professor := g.professor,
    review_count := g.review_count,
    avg_quality := round2 g.avg_quality,
    avg_workload := round2 g.avg_workload,
    score := round2 g.score }

/-- Ordering `ORDER BY score DESC, avg_quality DESC` on the selected columns. -/
def rankRel (A B : OutRow) : Prop :=
  B.score < A.score ∨ (A.score = B.score ∧ B.avg_quality ≤ A.avg_quality)

instance : DecidableRel rankRel := fun A B => by
  unfold rankRel; infer_instance

/-- The ranked query: group, filter
(`HAVING COUNT ≥ ?`, `WHERE avg_quality ≥ ? AND avg_workload ≤ ?`),
order, and truncate to `limit` rows. -/
def rankQuery (st : Store) (area : String) (min_q max_w : ℚ) (min_rev limit : ℕ) :
    List OutRow :=
  (List.insertionSort rankRel
    (((courseStats st area).filter fun g =>
        decide (min_rev ≤ g.review_count ∧ min_q ≤ g.avg_quality ∧
          g.avg_workload ≤ max_w)).map toOutRow)).take limit

/-- An output row of the no-reviews fallback query's select list: all
numeric fields zero. -/
def fallbackRow (c : Course) : OutRow :=
  { course_code := c.dept ++ " " ++ c.number, title := c.title,
    professor := "No reviews available", review_count := 0,
    avg_quality := 0, avg_workload := 0, score := 0 }

/-- Column and literal expressions occurring in the fallback query, the
granularity at which the engine's binder compares the `ORDER BY` items
against the `SELECT DISTINCT` list. -/
inductive SqlExpr where
  | colDept
  | colNumber
  | colTitle
  | codeConcat
  | litStr (s : String)
  | litInt (n : ℤ)
  | litFloat (q : ℚ)
deriving DecidableEq, Repr

/-- The fallback query's select list:
`c.dept || ' ' || c.number, c.title, 'No reviews available', 0, 0.0, 0.0, 0.0`. -/
def fallbackSelectList : List SqlExpr :=
  [ SqlExpr.codeConcat, SqlExpr.colTitle, SqlExpr.litStr "No reviews available",
    SqlExpr.litInt 0, SqlExpr.litFloat 0, SqlExpr.litFloat 0, SqlExpr.litFloat 0 ]

/-- The fallback query's order clause: `ORDER BY c.dept, c.number`. -/
def fallbackOrderBy : List SqlExpr := [ SqlExpr.colDept, SqlExpr.colNumber ]

/-- DuckDB's binder rule for `SELECT DISTINCT`: every `ORDER BY` expression
must appear in the select list, otherwise the query is rejected with a
binder error before producing any rows. -/
def distinctOrderByOK (orderBy selectList : List SqlExpr) : Bool :=
  orderBy.all fun e => decide (e ∈ selectList)

/-- Issuing the fallback query: `ORDER BY c.dept, c.number` names columns
absent from the `SELECT DISTINCT` list, so the binder check fails and the
engine raises instead of returning rows.  The `ok` branch carries the
distinct listing of the area's zero-field rows and is never reached; its
ordering is left unmodelled since the order clause is precisely what the
binder rejects. -/
def fallbackRun (st : Store) (area : String) (limit : ℕ) :
    Except String (List OutRow) :=
  if distinctOrderByOK fallbackOrderBy fallbackSelectList then
    Except.ok ((((st.courses.filter fun c => c.ge_area = area).map
      fallbackRow).eraseDups).take limit)
  else
    Except.error
      "Binder Error: for SELECT DISTINCT, ORDER BY expressions must appear in select list"

/-- What the page displays after one query branch: the resulting rows
(empty when the query raised) and whether an error message was shown. -/
structure AppResult where
  rows : List OutRow
  errorShown : Bool
deriving DecidableEq, Repr

/-- The app's dispatch: the ranked query runs whenever the whole store has at
least one review (`review_count > 0` counts ALL reviews); otherwise the
fallback query is issued inside try/except, a raised error being reported
and replaced by an empty table. -/
def rankApp (st : Store) (area : String) (min_q max_w : ℚ) (min_rev limit : ℕ) :
    AppResult :=
  if 0 < st.reviews.length then
    { rows := rankQuery st area min_q max_w min_rev limit, errorShown := false }
  else
    match fallbackRun st area limit with
    | Except.ok rows => { rows := rows, errorShown := false }
    | Except.error _ => { rows := [], errorShown := true }

/-! ### Trace predicates for the insert ordering -/

/-- Every section insert is immediately followed by its review insert, and
every review insert is immediately preceded by the section insert whose id
it references. -/
def pairsOKb : List Event → Bool
  | [] => true
  | Event.secIns s :: Event.revIns r :: rest =>
    decide (r.section_id = s.section_id) && pairsOKb rest
  | Event.secIns _ :: _ => false
  | Event.revIns _ :: _ => false
  | Event.profIns _ :: rest => pairsOKb rest
  | Event.courseIns _ :: rest => pairsOKb rest

/-- Scanning the trace with the course and professor ids already present in
the store: every section insert must reference a course id and a professor
id available at that point (pre-existing or inserted earlier in the trace). -/
def refOKb (cIds pIds : List ℤ) : List Event → Bool
  | [] => true
  | Event.courseIns c :: rest => refOKb (c.course_id :: cIds) pIds rest
  | Event.profIns p :: rest => refOKb cIds (p.prof_id :: pIds) rest
  | Event.secIns s :: rest =>
    decide (s.course_id ∈ cIds) && decide (s.prof_id ∈ pIds) && refOKb cIds pIds rest
  | Event.revIns _ :: rest => refOKb cIds pIds rest

/-! ### Concrete inputs used by counterexamples and witnesses -/

/-- The review text of the spec's extraction example scenario. -/
def exText : String :=
  "Great class! Rating: 4.5, Workload: 3 out of 10, taken Fall 2023, got A-"

/-- A store whose single review belongs to the Historical Analysis area,
while the Life Sciences area has a course but no reviews. -/
def exStore : Store :=
  { courses := [ ⟨1, "ANTHRO", "7", "Human Evolution", "Life Sciences"⟩,
                 ⟨2, "HIST", "1A", "West Civ", "Historical Analysis"⟩ ],
    professors := [ ⟨1, "Smith"⟩ ],
    sections := [ ⟨1, 2, 1, "Fall", 2023⟩ ],
    reviews := [ ⟨1, 1, 4, 5, "good"⟩ ] }

/-- A store with courses but no reviews at all. -/
def exStoreNoReviews : Store :=
  { courses := [ ⟨2, "HIST", "1A", "West Civ", "Historical Analysis"⟩,
                 ⟨1, "ANTHRO", "7", "Human Evolution", "Historical Analysis"⟩ ],
    professors := [], sections := [], reviews := [] }

/-- Scraped course data with one new professor and one cached professor; the
second review has all numeric signals absent. -/
def exCourseData : CourseData :=
  { dept := "ANTHRO", number := "7", title := "Human Evolution",
    reviews := [ { professor := "Jones", dept := "ANTHRO", number := "7",
                   quality := mkRat 45 10, workload := 3,
                   text := "nice course overall", quarter := "Fall",
                   year := 2023, grade := "A", would_recommend := none },
                 { professor := "Smith", dept := "ANTHRO", number := "7",
                   quality := 0, workload := 0,
                   text := "meh but quite long text", quarter := "",
                   year := 2024, grade := "", would_recommend := none } ] }

/-- The one `course_stats` group of `exStore`'s Historical Analysis area. -/
def exGroup : GroupStat :=
  { course := ⟨2, "HIST", "1A", "West Civ", "Historical Analysis"⟩
    professor := "Smith"
    review_count := 1
    avg_quality := 4
    avg_workload := 5
    score := mkRat 23 5 }

/-- Everything one run of the per-review loop guarantees, relating the final
state `fin` reached from `acc` on input list `l` to the freshly produced
professor rows `P`, section rows `S`, review rows `R` and trace `T`.
`Kc` and `Kp` are course and professor ids known to exist when the loop
starts. -/
structure FoldSpec (cid : ℤ) (l : List ReviewData) (acc fin : SaveState)
    (Kc Kp : List ℤ) (P : List Professor) (S : List Section) (R : List Review)
    (T : List Event) : Prop where
  profs_eq : fin.profsNew = acc.profsNew ++ P
  secs_eq : fin.secsNew = acc.secsNew ++ S
  revs_eq : fin.revsNew = acc.revsNew ++ R
  trace_eq : fin.trace = acc.trace ++ T
  nextSec_eq : fin.nextSec = acc.nextSec + l.length
  nextRev_eq : fin.nextRev = acc.nextRev + l.length
  nextProf_le : acc.nextProf ≤ fin.nextProf
  sec_fields : List.Forall₂
    (fun r s => s.course_id = cid ∧ s.term = r.quarter ∧ s.year = r.year) l S
  rev_fields : List.Forall₂
    (fun r v => v.quality = storedQuality r.quality ∧
      v.workload = storedWorkload r.workload ∧
      v.text = String.mk (r.text.data.take 500)) l R
  sec_rev_link : List.Forall₂ (fun s v => v.section_id = s.section_id) S R
  prof_chain : List.Chain' (· < ·) (P.map fun p => p.prof_id)
  prof_bounds : ∀ p ∈ P, acc.nextProf ≤ p.prof_id ∧ p.prof_id < fin.nextProf
  sec_chain : List.Chain' (· < ·) (S.map fun s => s.section_id)
  sec_bounds : ∀ s ∈ S, acc.nextSec ≤ s.section_id ∧ s.section_id < acc.nextSec + l.length
  rev_chain : List.Chain' (· < ·) (R.map fun v => v.review_id)
  rev_bounds : ∀ v ∈ R, acc.nextRev ≤ v.review_id ∧ v.review_id < acc.nextRev + l.length
  pairs_ok : pairsOKb T = true
  ref_ok : refOKb Kc Kp T = true

/-! ## Theorems -/

/-! ### Bridges between the reducible arithmetic and the `ℚ` operations -/

theorem qadd_eq (a b : ℚ) : qadd a b = a + b := (Rat.add_def' a b).symm

theorem qsub_eq (a b : ℚ) : qsub a b = a - b := (Rat.sub_def' a b).symm

theorem qmul_eq (a b : ℚ) : qmul a b = a * b := by
  unfold qmul; rw [Rat.mul_def, Rat.normalize_eq_mkRat]

theorem qinv_eq (a : ℚ) : qinv a = a⁻¹ := by
  unfold qinv
  rw [show a⁻¹ = a.inv from rfl, Rat.inv_def]

theorem qdiv_eq (a b : ℚ) : qdiv a b = a / b := by
  unfold qdiv; rw [qmul_eq, qinv_eq, div_eq_mul_inv]

theorem qneg_eq (a : ℚ) : qneg a = -a := by
  unfold qneg
  conv_rhs => rw [← Rat.mkRat_self a]
  rw [Rat.neg_mkRat]

theorem qfloor_eq (a : ℚ) : qfloor a = ⌊a⌋ := by
  conv_rhs => rw [← Rat.num_div_den a]
  rw [Rat.floor_intCast_div_natCast]; rfl

theorem natToQ_eq (n : ℕ) : natToQ n = (n : ℚ) := by
  unfold natToQ; rw [Rat.mkRat_eq_div]; push_cast; simp

theorem intToQ_eq (n : ℤ) : intToQ n = (n : ℚ) := by
  unfold intToQ; rw [Rat.mkRat_eq_div]; push_cast; simp

theorem qsum_eq (l : List ℚ) : qsum l = l.sum := by
  induction l with
  | nil => rfl
  | cons a t ih =>
    show qadd a (qsum t) = (a :: t).sum
    rw [qadd_eq, ih, List.sum_cons]

/-! ### The pattern cascade (C3) -/

theorem cascade_range (lo hi : ℚ) :
    ∀ l v, cascade lo hi l = some v → lo ≤ v ∧ v ≤ hi := by
  intro l
  induction l with
  | nil => intro v h; simp [cascade] at h
  | cons o rest ih =>
    intro v h
    match o with
    | none => exact ih v h
    | some w =>
      by_cases hw : lo ≤ w ∧ w ≤ hi
      · rw [cascade, if_pos hw] at h
        cases h; exact hw
      · rw [cascade, if_neg hw] at h
        exact ih v h

theorem cascade_first_valid (lo hi : ℚ) :
    ∀ pre v post,
      (∀ o ∈ pre, ∀ w, o = some w → ¬(lo ≤ w ∧ w ≤ hi)) →
      lo ≤ v → v ≤ hi →
      cascade lo hi (pre ++ some v :: post) = some v := by
  intro pre
  induction pre with
  | nil => intro v post _ h1 h2; rw [List.nil_append, cascade, if_pos ⟨h1, h2⟩]
  | cons o rest ih =>
    intro v post hpre h1 h2
    have hrest : ∀ o ∈ rest, ∀ w, o = some w → ¬(lo ≤ w ∧ w ≤ hi) :=
      fun o ho => hpre o (List.mem_cons_of_mem _ ho)
    match o with
    | none => rw [List.cons_append, cascade]; exact ih v post hrest h1 h2
    | some w =>
      have hw := hpre (some w) (List.mem_cons_self _ _) w rfl
      rw [List.cons_append, cascade, if_neg hw]
      exact ih v post hrest h1 h2

/-- C3: a value extracted by the quality cascade always lies in `[0, 5]` and
one extracted by the workload cascade in `[0, 10]`; in either cascade the
first pattern whose matched value passes the range check wins, earlier
patterns having produced no match or only out-of-range matches. -/
theorem extract_range_first_valid :
    (∀ s v, extractQuality s = some v → 0 ≤ v ∧ v ≤ 5) ∧
    (∀ s v, extractWorkload s = some v → 0 ≤ v ∧ v ≤ 10) ∧
    (∀ lo hi : ℚ, ∀ pre v post,
      (∀ o ∈ pre, ∀ w, o = some w → ¬(lo ≤ w ∧ w ≤ hi)) →
      lo ≤ v → v ≤ hi →
      cascade lo hi (pre ++ some v :: post) = some v) :=
  ⟨fun s v h => cascade_range 0 5 (qualityPatterns s) v h,
   fun s v h => cascade_range 0 10 (workloadPatterns s) v h,
   fun lo hi pre v post h h1 h2 => cascade_first_valid lo hi pre v post h h1 h2⟩

theorem extract_range_first_valid_witness :
    (0 ≤ (mkRat 45 10 : ℚ) ∧ (mkRat 45 10 : ℚ) ≤ 5) ∧
    (0 ≤ (3 : ℚ) ∧ (3 : ℚ) ≤ 10) ∧
    cascade 0 5 ([ none, some 7 ] ++ some (mkRat 45 10) :: [ some 2 ]) =
      some (mkRat 45 10) :=
  ⟨extract_range_first_valid.1 "Rating: 4.5".data (mkRat 45 10) (by decide),
   extract_range_first_valid.2.1 "Workload: 3".data 3 (by decide),
   extract_range_first_valid.2.2 0 5 [ none, some 7 ] (mkRat 45 10) [ some 2 ]
     (by decide) (by decide) (by decide)⟩

/-! ### ReviewRecordBuilder acceptance rule (C2) -/

/-- C2: the builder returns a record exactly when the extracted quality is
positive or the stripped-and-truncated text is longer than 10 characters,
and every returned record itself satisfies that disjunction. -/
theorem builder_keep_iff (content professor dept number : String) :
    (∀ r, parseReviewElement content professor dept number = some r →
      0 < r.quality ∨ 10 < r.text.length) ∧
    ((parseReviewElement content professor dept number).isSome ↔
      (0 < qualVal content ∨ 10 < (textVal content).length)) := by
  constructor
  · intro r h
    unfold parseReviewElement at h
    by_cases hc : 0 < qualVal content ∨ 10 < (textVal content).length
    · rw [if_pos hc] at h
      cases h
      exact hc
    · rw [if_neg hc] at h
      cases h
  · unfold parseReviewElement
    by_cases hc : 0 < qualVal content ∨ 10 < (textVal content).length
    · rw [if_pos hc]; simpa using hc
    · rw [if_neg hc]; simpa using hc

theorem builder_keep_iff_witness :
    (0 < (mkRat 45 10 : ℚ) ∨ 10 < "x".length) ∧
    ¬(parseReviewElement "ok" "P" "D" "N").isSome := by
  constructor
  · have h := (builder_keep_iff exText "P" "D" "N").1
    have hr := h ((parseReviewElement exText "P" "D" "N").get (by decide))
      (by decide)
    exact Or.inl (by decide)
  · intro h
    have := (builder_keep_iff "ok" "P" "D" "N").2.mp h
    revert this
    decide

/-! ### The extraction example scenario (C9)

On the text of the example scenario the grade regular expression
`\b([A-F][+-]?|P|NP)\b` cannot match `"A-"`: after consuming `A-` at the
very end of the text the closing `\b` fails (a boundary needs a word
character on one side, and `-` at end of input has none), so the engine
backtracks on the optional `[+-]?` and matches `"A"` alone. -/

theorem example_grade_cex :
    (parseReviewElement exText "Prof" "COM SCI" "174A").map ReviewData.grade =
      some "A" ∧ ("A" : String) ≠ "A-" ∧ extractGrade exText.data = some "A" := by
  refine ⟨by decide, by decide, by decide⟩

/-- C9 (amended): on the example text, extraction yields quality `4.5`,
workload `3.0`, term `"Fall"`, year `2023`, and grade `"A"`. -/
theorem example_extraction_amended :
    (parseReviewElement exText "Prof" "COM SCI" "174A").map
      (fun r => (r.quality, r.workload, r.quarter, r.year, r.grade)) =
      some (9/2, 3, "Fall", 2023, "A") := by
  have h45 : (9/2 : ℚ) = mkRat 45 10 := by
    rw [Rat.mkRat_eq_div]; norm_num
  rw [h45]
  decide

/-! ### Association-list lookup facts -/

theorem lookup_mem {β : Type _} {k : String} {v : β} :
    ∀ {ps : List (String × β)}, List.lookup k ps = some v → (k, v) ∈ ps := by
  intro ps
  induction ps with
  | nil => intro h; simp [List.lookup] at h
  | cons p t ih =>
    obtain ⟨pk, pv⟩ := p
    intro h
    rw [List.lookup] at h
    cases hb : k == pk with
    | true =>
      rw [hb] at h
      cases h
      have : k = pk := by exact_mod_cast beq_iff_eq.mp hb
      subst this
      exact List.mem_cons_self _ _
    | false =>
      rw [hb] at h
      exact List.mem_cons_of_mem _ (ih h)

theorem lookup_cons_self {β : Type _} (k : String) (v : β) (ps : List (String × β)) :
    List.lookup k ((k, v) :: ps) = some v := by
  simp [List.lookup]

theorem seedCache_lookup (st : Store) (name : String) (pid : ℤ)
    (h : List.lookup name (seedCache st) = some pid) :
    pid ∈ st.professors.map fun p => p.prof_id := by
  have hm := lookup_mem h
  unfold seedCache at hm
  rw [List.mem_reverse] at hm
  simp only [List.mem_map] at hm ⊢
  obtain ⟨p, hp, he⟩ := hm
  exact ⟨p, hp, congrArg Prod.snd he⟩

/-! ### Truncation and clamping -/

theorem qtrunc_eq_floor {a : ℚ} (h : 0 ≤ a) : qtrunc a = ⌊a⌋ := by
  rw [← qfloor_eq]
  exact Int.tdiv_eq_ediv (Rat.num_nonneg.mpr h) (Int.ofNat_nonneg a.den)

theorem le_qtrunc {z : ℤ} {a : ℚ} (hz : 0 ≤ z) (h : (z : ℚ) ≤ a) : z ≤ qtrunc a := by
  have h0 : 0 ≤ a := le_trans (by exact_mod_cast hz) h
  rw [qtrunc_eq_floor h0]
  exact Int.le_floor.mpr h

theorem qtrunc_nonpos_of_lt_one {a : ℚ} (h : a < 1) : qtrunc a ≤ 0 := by
  rcases le_or_lt 0 a with h0 | h0
  · rw [qtrunc_eq_floor h0]
    have hlt : ⌊a⌋ < 1 := Int.floor_lt.mpr (by exact_mod_cast h)
    omega
  · have hnum : a.num ≤ 0 := by
      by_contra hc
      exact absurd (Rat.num_nonneg.mp (by omega)) (not_le.mpr h0)
    have hnn := Int.tdiv_nonneg (a := -a.num) (b := (a.den : ℤ))
      (by omega) (Int.ofNat_nonneg a.den)
    rw [Int.neg_tdiv] at hnn
    unfold qtrunc
    omega

theorem storedQuality_bounds (q : ℚ) : 1 ≤ storedQuality q ∧ storedQuality q ≤ 5 := by
  unfold storedQuality; omega

theorem storedWorkload_bounds (w : ℚ) : 1 ≤ storedWorkload w ∧ storedWorkload w ≤ 10 := by
  unfold storedWorkload
  split <;> omega

theorem storedQuality_high {q : ℚ} (h : 5 < q) : storedQuality q = 5 := by
  have h5 : (5 : ℤ) ≤ qtrunc q := le_qtrunc (by norm_num) (by exact_mod_cast le_of_lt h)
  unfold storedQuality; omega

theorem storedQuality_low {q : ℚ} (h : q < 1) : storedQuality q = 1 := by
  have := qtrunc_nonpos_of_lt_one h
  unfold storedQuality; omega

theorem storedWorkload_high {w : ℚ} (h : 10 < w) : storedWorkload w = 10 := by
  have h0 : 0 < w := lt_trans (by norm_num) h
  have h10 : (10 : ℤ) ≤ qtrunc w := le_qtrunc (by norm_num) (by exact_mod_cast le_of_lt h)
  unfold storedWorkload
  rw [if_pos h0]
  omega

theorem storedWorkload_low {w : ℚ} (h0 : 0 < w) (h : w < 1) : storedWorkload w = 1 := by
  have := qtrunc_nonpos_of_lt_one h
  unfold storedWorkload
  rw [if_pos h0]
  omega

theorem storedWorkload_absent {w : ℚ} (h : w ≤ 0) : storedWorkload w = 5 := by
  unfold storedWorkload
  rw [if_neg (not_lt.mpr h)]
  rfl

/-! ### The reconciliation loop -/

theorem chain'_cons_of_bound {β : Type _} (f : β → ℤ) (x : ℤ) (L : List β)
    (hL : List.Chain' (· < ·) (L.map f)) (hb : ∀ b ∈ L, x < f b) :
    List.Chain' (· < ·) (x :: L.map f) := by
  rw [List.chain'_cons']
  refine ⟨?_, hL⟩
  intro y hy
  cases L with
  | nil => simp at hy
  | cons b t =>
    simp only [List.map_cons, List.head?_cons, Option.mem_def, Option.some_inj] at hy
    subst hy
    exact hb b (List.mem_cons_self _ _)

theorem saveFold_spec (cid : ℤ) (l : List ReviewData) :
    ∀ (acc : SaveState) (Kc Kp : List ℤ), cid ∈ Kc →
      (∀ name pid, List.lookup name acc.cache = some pid → pid ∈ Kp) →
      ∃ P S R T, FoldSpec cid l acc (l.foldl (saveStep cid) acc) Kc Kp P S R T := by
  induction l with
  | nil =>
    intro acc Kc Kp _ _
    refine ⟨[], [], [], [], ?_⟩
    constructor <;> simp [pairsOKb, refOKb]
  | cons r rs ih =>
    intro acc Kc Kp hcid hcache
    rw [List.foldl_cons]
    cases hl : List.lookup r.professor acc.cache with
    | some pid =>
      set secR : Section :=
        { section_id := acc.nextSec, course_id := cid, prof_id := pid,
          term := r.quarter, year := r.year } with hsecR
      set revR : Review :=
        { review_id := acc.nextRev, section_id := acc.nextSec,
          quality := storedQuality r.quality, workload := storedWorkload r.workload,
          text := String.mk (r.text.data.take 500) } with hrevR
      set acc' : SaveState :=
        { acc with
          nextSec := acc.nextSec + 1
          nextRev := acc.nextRev + 1
          secsNew := acc.secsNew ++ [ secR ]
          revsNew := acc.revsNew ++ [ revR ]
          trace := acc.trace ++ [ Event.secIns secR, Event.revIns revR ] } with hacc'
      have hstep : saveStep cid acc r = acc' := by
        simp [saveStep, resolveProfessor, hl, Option.toList, hacc']
      have hnp : acc'.nextProf = acc.nextProf := by rw [hacc']
      have hns : acc'.nextSec = acc.nextSec + 1 := by rw [hacc']
      have hnr : acc'.nextRev = acc.nextRev + 1 := by rw [hacc']
      have hpn : acc'.profsNew = acc.profsNew := by rw [hacc']
      have hsn : acc'.secsNew = acc.secsNew ++ [ secR ] := by rw [hacc']
      have hrn : acc'.revsNew = acc.revsNew ++ [ revR ] := by rw [hacc']
      have htr : acc'.trace = acc.trace ++ [ Event.secIns secR, Event.revIns revR ] := by
        rw [hacc']
      have hsid : secR.section_id = acc.nextSec := by rw [hsecR]
      have hrid : revR.review_id = acc.nextRev := by rw [hrevR]
      have hcache' : ∀ name pd, List.lookup name acc'.cache = some pd → pd ∈ Kp := by
        intro n pd h
        rw [show acc'.cache = acc.cache from by rw [hacc']] at h
        exact hcache n pd h
      rw [hstep]
      obtain ⟨P', S', R', T', hF⟩ := ih acc' Kc Kp hcid hcache'
      refine ⟨P', secR :: S', revR :: R', Event.secIns secR :: Event.revIns revR :: T', ?_⟩
      constructor
      · rw [hF.profs_eq, hpn]
      · rw [hF.secs_eq, hsn, List.append_assoc, List.singleton_append]
      · rw [hF.revs_eq, hrn, List.append_assoc, List.singleton_append]
      · rw [hF.trace_eq, htr, List.append_assoc]
        rfl
      · rw [hF.nextSec_eq, hns, List.length_cons]
        push_cast
        omega
      · rw [hF.nextRev_eq, hnr, List.length_cons]
        push_cast
        omega
      · have := hF.nextProf_le
        rw [hnp] at this
        exact this
      · exact List.Forall₂.cons ⟨rfl, rfl, rfl⟩ hF.sec_fields
      · exact List.Forall₂.cons ⟨rfl, rfl, rfl⟩ hF.rev_fields
      · exact List.Forall₂.cons rfl hF.sec_rev_link
      · exact hF.prof_chain
      · intro p hp
        have := hF.prof_bounds p hp
        rw [hnp] at this
        exact this
      · rw [List.map_cons]
        refine chain'_cons_of_bound _ _ _ hF.sec_chain ?_
        intro b hb
        have := (hF.sec_bounds b hb).1
        rw [hns] at this
        omega
      · intro s hs
        rcases List.mem_cons.mp hs with rfl | hs
        · rw [List.length_cons]
          push_cast
          omega
        · have := hF.sec_bounds s hs
          rw [hns] at this
          rw [List.length_cons]
          push_cast
          omega
      · rw [List.map_cons]
        refine chain'_cons_of_bound _ _ _ hF.rev_chain ?_
        intro b hb
        have := (hF.rev_bounds b hb).1
        rw [hnr] at this
        omega
      · intro v hv
        rcases List.mem_cons.mp hv with rfl | hv
        · rw [List.length_cons]
          push_cast
          omega
        · have := hF.rev_bounds v hv
          rw [hnr] at this
          rw [List.length_cons]
          push_cast
          omega
      · simp [pairsOKb, hF.pairs_ok, hrevR, hsecR]
      · simp [refOKb, hF.ref_ok, hcid, hsecR, hcache r.professor pid hl]
    | none =>
      set profR : Professor := { prof_id := acc.nextProf, name := r.professor } with hprofR
      set secR : Section :=
        { section_id := acc.nextSec, course_id := cid, prof_id := acc.nextProf,
          term := r.quarter, year := r.year } with hsecR
      set revR : Review :=
        { review_id := acc.nextRev, section_id := acc.nextSec,
          quality := storedQuality r.quality, workload := storedWorkload r.workload,
          text := String.mk (r.text.data.take 500) } with hrevR
      set acc' : SaveState :=
        { cache := (r.professor, acc.nextProf) :: acc.cache
          nextProf := acc.nextProf + 1
          nextSec := acc.nextSec + 1
          nextRev := acc.nextRev + 1
          profsNew := acc.profsNew ++ [ profR ]
          secsNew := acc.secsNew ++ [ secR ]
          revsNew := acc.revsNew ++ [ revR ]
          trace := acc.trace ++
            [ Event.profIns profR, Event.secIns secR, Event.revIns revR ] } with hacc'
      have hstep : saveStep cid acc r = acc' := by
        simp [saveStep, resolveProfessor, hl, Option.toList, hacc']
      have hnp : acc'.nextProf = acc.nextProf + 1 := by rw [hacc']
      have hns : acc'.nextSec = acc.nextSec + 1 := by rw [hacc']
      have hnr : acc'.nextRev = acc.nextRev + 1 := by rw [hacc']
      have hpn : acc'.profsNew = acc.profsNew ++ [ profR ] := by rw [hacc']
      have hsn : acc'.secsNew = acc.secsNew ++ [ secR ] := by rw [hacc']
      have hrn : acc'.revsNew = acc.revsNew ++ [ revR ] := by rw [hacc']
      have htr : acc'.trace = acc.trace ++
          [ Event.profIns profR, Event.secIns secR, Event.revIns revR ] := by
        rw [hacc']
      have hsid : secR.section_id = acc.nextSec := by rw [hsecR]
      have hrid : revR.review_id = acc.nextRev := by rw [hrevR]
      have hpid : profR.prof_id = acc.nextProf := by rw [hprofR]
      have hcache' : ∀ name pd, List.lookup name acc'.cache = some pd →
          pd ∈ acc.nextProf :: Kp := by
        intro n pd h
        rw [show acc'.cache = (r.professor, acc.nextProf) :: acc.cache from by rw [hacc']] at h
        by_cases hnr2 : n = r.professor
        · subst hnr2
          rw [lookup_cons_self] at h
          cases h
          exact List.mem_cons_self _ _
        · simp only [List.lookup] at h
          rw [show (n == r.professor) = false from beq_eq_false_iff_ne.mpr hnr2] at h
          exact List.mem_cons_of_mem _ (hcache n pd h)
      rw [hstep]
      obtain ⟨P', S', R', T', hF⟩ := ih acc' Kc (acc.nextProf :: Kp) hcid hcache'
      refine ⟨profR :: P', secR :: S', revR :: R',
        Event.profIns profR :: Event.secIns secR :: Event.revIns revR :: T', ?_⟩
      constructor
      · rw [hF.profs_eq, hpn, List.append_assoc, List.singleton_append]
      · rw [hF.secs_eq, hsn, List.append_assoc, List.singleton_append]
      · rw [hF.revs_eq, hrn, List.append_assoc, List.singleton_append]
      · rw [hF.trace_eq, htr, List.append_assoc]
        rfl
      · rw [hF.nextSec_eq, hns, List.length_cons]
        push_cast
        omega
      · rw [hF.nextRev_eq, hnr, List.length_cons]
        push_cast
        omega
      · have := hF.nextProf_le
        rw [hnp] at this
        omega
      · exact List.Forall₂.cons ⟨rfl, rfl, rfl⟩ hF.sec_fields
      · exact List.Forall₂.cons ⟨rfl, rfl, rfl⟩ hF.rev_fields
      · exact List.Forall₂.cons rfl hF.sec_rev_link
      · rw [List.map_cons]
        refine chain'_cons_of_bound _ _ _ hF.prof_chain ?_
        intro b hb
        have := (hF.prof_bounds b hb).1
        rw [hnp] at this
        omega
      · intro p hp
        rcases List.mem_cons.mp hp with rfl | hp
        · have := hF.nextProf_le
          rw [hnp] at this
          constructor
          · omega
          · omega
        · have := hF.prof_bounds p hp
          rw [hnp] at this
          omega
      · rw [List.map_cons]
        refine chain'_cons_of_bound _ _ _ hF.sec_chain ?_
        intro b hb
        have := (hF.sec_bounds b hb).1
        rw [hns] at this
        omega
      · intro s hs
        rcases List.mem_cons.mp hs with rfl | hs
        · rw [List.length_cons]
          push_cast
          omega
        · have := hF.sec_bounds s hs
          rw [hns] at this
          rw [List.length_cons]
          push_cast
          omega
      · rw [List.map_cons]
        refine chain'_cons_of_bound _ _ _ hF.rev_chain ?_
        intro b hb
        have := (hF.rev_bounds b hb).1
        rw [hnr] at this
        omega
      · intro v hv
        rcases List.mem_cons.mp hv with rfl | hv
        · rw [List.length_cons]
          push_cast
          omega
        · have := hF.rev_bounds v hv
          rw [hnr] at this
          rw [List.length_cons]
          push_cast
          omega
      · simp [pairsOKb, hF.pairs_ok, hrevR, hsecR]
      · simp [refOKb, hF.ref_ok, hcid, hsecR, hprofR]

theorem lt_nextId {ids : List ℤ} {x : ℤ} (hx : x ∈ ids) : x < nextId ids := by
  unfold nextId
  cases hm : ids.max? with
  | none =>
    rw [List.max?_eq_none_iff] at hm
    subst hm
    cases hx
  | some m =>
    have hle : x ≤ m := (List.max?_le_iff (fun _ _ _ => max_le_iff) hm).mp le_rfl x hx
    show x < if m + 1 = 0 then 1 else m + 1
    rcases eq_or_ne (m + 1) 0 with h0 | h0
    · rw [if_pos h0]
      omega
    · rw [if_neg h0]
      omega

theorem forall₂_mem_right {α β : Type _} {Rel : α → β → Prop} :
    ∀ {l1 : List α} {l2 : List β}, List.Forall₂ Rel l1 l2 →
      ∀ b ∈ l2, ∃ a ∈ l1, Rel a b := by
  intro l1 l2 h
  induction h with
  | nil => simp
  | cons hr _ ihr =>
    intro b hb
    rcases List.mem_cons.mp hb with rfl | hb
    · exact ⟨_, List.mem_cons_self _ _, hr⟩
    · obtain ⟨a, ha, hr'⟩ := ihr b hb
      exact ⟨a, List.mem_cons_of_mem _ ha, hr'⟩

theorem lookup_isSome_of_mem {β : Type _} {k : String} {v : β} :
    ∀ {ps : List (String × β)}, (k, v) ∈ ps → (List.lookup k ps).isSome := by
  intro ps
  induction ps with
  | nil => intro h; cases h
  | cons p t ih =>
    obtain ⟨pk, pv⟩ := p
    intro h
    rw [List.lookup]
    cases hb : k == pk with
    | true => rfl
    | false =>
      rcases List.mem_cons.mp h with he | ht
      · exfalso
        cases he
        simp at hb
      · exact ih ht

theorem resolveCourse_cases (st : Store) (cd : CourseData) (area : String)
    {cid : ℤ} {newCs : List Course} (h : resolveCourse st cd area = (cid, newCs)) :
    (newCs = [] ∧ cid ∈ st.courses.map fun c => c.course_id) ∨
    (∃ c : Course, newCs = [ c ] ∧ c.course_id = cid) := by
  unfold resolveCourse at h
  cases hf : st.courses.find? (fun c => c.dept = cd.dept && c.number = cd.number) with
  | some c =>
    rw [hf] at h
    cases h
    exact Or.inl ⟨rfl, List.mem_map.mpr ⟨c, List.mem_of_find?_eq_some hf, rfl⟩⟩
  | none =>
    rw [hf] at h
    cases h
    exact Or.inr ⟨_, rfl, rfl⟩

/-- C5: every professor, section and review id allocated by one
`_save_course_to_db` run is strictly greater than every id of its kind
present in the store at run start, and no two rows inserted by the run share
an id of the same kind. -/
theorem ids_fresh_and_distinct (st : Store) (cd : CourseData) (area : String) :
    (∀ p ∈ (saveCourseToDb st cd area).newProfs, ∀ q ∈ st.professors,
      q.prof_id < p.prof_id) ∧
    (∀ s ∈ (saveCourseToDb st cd area).newSections, ∀ t ∈ st.sections,
      t.section_id < s.section_id) ∧
    (∀ v ∈ (saveCourseToDb st cd area).newReviews, ∀ t ∈ st.reviews,
      t.review_id < v.review_id) ∧
    ((saveCourseToDb st cd area).newProfs.map fun p => p.prof_id).Nodup ∧
    ((saveCourseToDb st cd area).newSections.map fun s => s.section_id).Nodup ∧
    ((saveCourseToDb st cd area).newReviews.map fun v => v.review_id).Nodup := by
  rcases hrc : resolveCourse st cd area with ⟨cid, newCs⟩
  have hcid : cid ∈ newCs.map (fun c => c.course_id) ++
      st.courses.map fun c => c.course_id := by
    rcases resolveCourse_cases st cd area hrc with ⟨hnil, hmem⟩ | ⟨c, hc, hid⟩
    · subst hnil
      simpa using hmem
    · subst hc
      subst hid
      simp
  obtain ⟨P, S, R, T, hF⟩ := saveFold_spec cid cd.reviews
    { cache := seedCache st
      nextProf := nextId (st.professors.map fun p => p.prof_id)
      nextSec := nextId (st.sections.map fun s => s.section_id)
      nextRev := nextId (st.reviews.map fun r => r.review_id)
      profsNew := []
      secsNew := []
      revsNew := []
      trace := newCs.map Event.courseIns }
    (newCs.map (fun c => c.course_id) ++ st.courses.map fun c => c.course_id)
    (st.professors.map fun p => p.prof_id)
    hcid (fun name pid h => seedCache_lookup st name pid h)
  have hP := hF.profs_eq
  have hS := hF.secs_eq
  have hR := hF.revs_eq
  simp only [List.nil_append] at hP hS hR
  simp only [saveCourseToDb, hrc, hP, hS, hR]
  refine ⟨?_, ?_, ?_, ?_, ?_, ?_⟩
  · intro p hp q hq
    have h1 := (hF.prof_bounds p hp).1
    have h2 : q.prof_id < nextId (st.professors.map fun p => p.prof_id) :=
      lt_nextId (List.mem_map.mpr ⟨q, hq, rfl⟩)
    exact lt_of_lt_of_le h2 h1
  · intro s hs t ht
    have h1 := (hF.sec_bounds s hs).1
    have h2 : t.section_id < nextId (st.sections.map fun s => s.section_id) :=
      lt_nextId (List.mem_map.mpr ⟨t, ht, rfl⟩)
    exact lt_of_lt_of_le h2 h1
  · intro v hv t ht
    have h1 := (hF.rev_bounds v hv).1
    have h2 : t.review_id < nextId (st.reviews.map fun r => r.review_id) :=
      lt_nextId (List.mem_map.mpr ⟨t, ht, rfl⟩)
    exact lt_of_lt_of_le h2 h1
  · exact ((List.chain'_iff_pairwise.mp hF.prof_chain).imp fun h => ne_of_lt h)
  · exact ((List.chain'_iff_pairwise.mp hF.sec_chain).imp fun h => ne_of_lt h)
  · exact ((List.chain'_iff_pairwise.mp hF.rev_chain).imp fun h => ne_of_lt h)

theorem ids_fresh_and_distinct_witness :
    (⟨2, "Jones"⟩ : Professor) ∈
      (saveCourseToDb exStore exCourseData "Life Sciences").newProfs ∧
    (⟨1, "Smith"⟩ : Professor) ∈ exStore.professors ∧ (1 : ℤ) < 2 :=
  ⟨by decide, by decide,
    (ids_fresh_and_distinct exStore exCourseData "Life Sciences").1
      ⟨2, "Jones"⟩ (by decide) ⟨1, "Smith"⟩ (by decide)⟩

/-- C6: within one run, resolving the same professor name twice yields the
same id and leaves cache and counter unchanged the second time; the lookup
is an exact, case-sensitive name match, and the cache seeded from the store
resolves exactly the names present in the professors table. -/
theorem resolve_professor_idem (cache : List (String × ℤ)) (next : ℤ) (name : String) :
    ((resolveProfessor (resolveProfessor cache next name).2.1
        (resolveProfessor cache next name).2.2.1 name).1 =
      (resolveProfessor cache next name).1 ∧
    (resolveProfessor (resolveProfessor cache next name).2.1
        (resolveProfessor cache next name).2.2.1 name).2.1 =
      (resolveProfessor cache next name).2.1 ∧
    (resolveProfessor (resolveProfessor cache next name).2.1
        (resolveProfessor cache next name).2.2.1 name).2.2.1 =
      (resolveProfessor cache next name).2.2.1 ∧
    (resolveProfessor (resolveProfessor cache next name).2.1
        (resolveProfessor cache next name).2.2.1 name).2.2.2 = none) ∧
    (∀ st : Store, (List.lookup name (seedCache st)).isSome ↔
      name ∈ st.professors.map fun p => p.name) := by
  constructor
  · cases hl : List.lookup name cache with
    | some pid => simp [resolveProfessor, hl]
    | none => simp [resolveProfessor, hl, lookup_cons_self]
  · intro st
    constructor
    · intro h
      cases hl : List.lookup name (seedCache st) with
      | none => rw [hl] at h; cases h
      | some pid =>
        have := lookup_mem hl
        unfold seedCache at this
        rw [List.mem_reverse] at this
        simp only [List.mem_map] at this ⊢
        obtain ⟨p, hp, he⟩ := this
        exact ⟨p, hp, congrArg Prod.fst he⟩
    · intro h
      simp only [List.mem_map] at h
      obtain ⟨p, hp, hn⟩ := h
      have hmem : (name, p.prof_id) ∈ seedCache st := by
        unfold seedCache
        rw [List.mem_reverse]
        exact List.mem_map.mpr ⟨p, hp, by rw [hn]⟩
      exact lookup_isSome_of_mem hmem

theorem saveRows_fields (st : Store) (cd : CourseData) (area : String) :
    (saveCourseToDb st cd area).newReviews.length = cd.reviews.length ∧
    List.Forall₂ (fun (rd : ReviewData) (s : Section) =>
      s.term = rd.quarter ∧ s.year = rd.year) cd.reviews
      (saveCourseToDb st cd area).newSections ∧
    List.Forall₂ (fun (rd : ReviewData) (v : Review) =>
      v.quality = storedQuality rd.quality ∧ v.workload = storedWorkload rd.workload)
      cd.reviews (saveCourseToDb st cd area).newReviews := by
  rcases hrc : resolveCourse st cd area with ⟨cid, newCs⟩
  have hcid : cid ∈ newCs.map (fun c => c.course_id) ++
      st.courses.map fun c => c.course_id := by
    rcases resolveCourse_cases st cd area hrc with ⟨hnil, hmem⟩ | ⟨c, hc, hid⟩
    · subst hnil
      simpa using hmem
    · subst hc
      subst hid
      simp
  obtain ⟨P, S, R, T, hF⟩ := saveFold_spec cid cd.reviews
    { cache := seedCache st
      nextProf := nextId (st.professors.map fun p => p.prof_id)
      nextSec := nextId (st.sections.map fun s => s.section_id)
      nextRev := nextId (st.reviews.map fun r => r.review_id)
      profsNew := []
      secsNew := []
      revsNew := []
      trace := newCs.map Event.courseIns }
    (newCs.map (fun c => c.course_id) ++ st.courses.map fun c => c.course_id)
    (st.professors.map fun p => p.prof_id)
    hcid (fun name pid h => seedCache_lookup st name pid h)
  have hS := hF.secs_eq
  have hR := hF.revs_eq
  simp only [List.nil_append] at hS hR
  simp only [saveCourseToDb, hrc, hS, hR]
  exact ⟨(List.Forall₂.length_eq hF.rev_fields).symm,
    hF.sec_fields.imp fun _ _ h => ⟨h.2.1, h.2.2⟩,
    hF.rev_fields.imp fun _ _ h => ⟨h.1, h.2.1⟩⟩

/-- C7: one fresh section row is inserted per kept review (equal counts),
review row `i` references exactly the section row created immediately
before it, and along the insert trace every section references a course and
professor already present — the Course → Professor → Section → Review
ordering. -/
theorem insert_order_integrity (st : Store) (cd : CourseData) (area : String) :
    (saveCourseToDb st cd area).newSections.length = cd.reviews.length ∧
    (saveCourseToDb st cd area).newReviews.length = cd.reviews.length ∧
    List.Forall₂ (fun (s : Section) (v : Review) => v.section_id = s.section_id)
      (saveCourseToDb st cd area).newSections (saveCourseToDb st cd area).newReviews ∧
    pairsOKb (saveCourseToDb st cd area).trace = true ∧
    refOKb (st.courses.map fun c => c.course_id) (st.professors.map fun p => p.prof_id)
      (saveCourseToDb st cd area).trace = true := by
  rcases hrc : resolveCourse st cd area with ⟨cid, newCs⟩
  have hcases := resolveCourse_cases st cd area hrc
  have hcid : cid ∈ newCs.map (fun c => c.course_id) ++
      st.courses.map fun c => c.course_id := by
    rcases hcases with ⟨hnil, hmem⟩ | ⟨c, hc, hid⟩
    · subst hnil
      simpa using hmem
    · subst hc
      subst hid
      simp
  obtain ⟨P, S, R, T, hF⟩ := saveFold_spec cid cd.reviews
    { cache := seedCache st
      nextProf := nextId (st.professors.map fun p => p.prof_id)
      nextSec := nextId (st.sections.map fun s => s.section_id)
      nextRev := nextId (st.reviews.map fun r => r.review_id)
      profsNew := []
      secsNew := []
      revsNew := []
      trace := newCs.map Event.courseIns }
    (newCs.map (fun c => c.course_id) ++ st.courses.map fun c => c.course_id)
    (st.professors.map fun p => p.prof_id)
    hcid (fun name pid h => seedCache_lookup st name pid h)
  have hS := hF.secs_eq
  have hR := hF.revs_eq
  have hT := hF.trace_eq
  simp only [List.nil_append] at hS hR
  simp only [saveCourseToDb, hrc, hS, hR, hT]
  refine ⟨(List.Forall₂.length_eq hF.sec_fields).symm,
    (List.Forall₂.length_eq hF.rev_fields).symm, hF.sec_rev_link, ?_, ?_⟩
  · rcases hcases with ⟨hnil, _⟩ | ⟨c, hc, _⟩
    · subst hnil
      simpa using hF.pairs_ok
    · subst hc
      simpa [pairsOKb] using hF.pairs_ok
  · rcases hcases with ⟨hnil, _⟩ | ⟨c, hc, _⟩
    · subst hnil
      have := hF.ref_ok
      simpa using this
    · subst hc
      have := hF.ref_ok
      simp at this
      simpa [refOKb] using this

/-- C10: an absent quality signal (extracted 0) is stored as quality 1, an
absent workload signal as workload 5, and an unmatched season/year as term
`""` with year 2024; every kept review still yields exactly one stored row,
the section row copying its term and year. -/
theorem defaults_spec :
    (∀ content professor dept number r,
      parseReviewElement content professor dept number = some r →
      extractQuarter content.data = none → r.quarter = "" ∧ r.year = 2024) ∧
    storedQuality 0 = 1 ∧ storedWorkload 0 = 5 ∧
    (∀ st cd area,
      (saveCourseToDb st cd area).newReviews.length = cd.reviews.length ∧
      List.Forall₂ (fun (rd : ReviewData) (s : Section) =>
        s.term = rd.quarter ∧ s.year = rd.year) cd.reviews
        (saveCourseToDb st cd area).newSections ∧
      List.Forall₂ (fun (rd : ReviewData) (v : Review) =>
        v.quality = storedQuality rd.quality ∧ v.workload = storedWorkload rd.workload)
        cd.reviews (saveCourseToDb st cd area).newReviews) := by
  refine ⟨?_, by decide, by decide, ?_⟩
  · intro content professor dept number r h hq
    unfold parseReviewElement at h
    by_cases hc : 0 < qualVal content ∨ 10 < (textVal content).length
    · rw [if_pos hc] at h
      cases h
      unfold quarterVal
      rw [hq]
      exact ⟨rfl, rfl⟩
    · rw [if_neg hc] at h
      cases h
  · intro st cd area
    exact saveRows_fields st cd area

theorem defaults_spec_witness :
    ({ professor := "P", dept := "D", number := "N", quality := 0, workload := 0,
       text := "a plain long review", quarter := "", year := 2024, grade := "",
       would_recommend := none } : ReviewData).quarter = "" ∧
    ({ professor := "P", dept := "D", number := "N", quality := 0, workload := 0,
       text := "a plain long review", quarter := "", year := 2024, grade := "",
       would_recommend := none } : ReviewData).year = 2024 ∧
    (saveCourseToDb exStore exCourseData "Life Sciences").newReviews.length =
      exCourseData.reviews.length := by
  have h := defaults_spec
  obtain ⟨h1, h2⟩ := h.1 "a plain long review" "P" "D" "N"
    { professor := "P", dept := "D", number := "N", quality := 0, workload := 0,
      text := "a plain long review", quarter := "", year := 2024, grade := "",
      would_recommend := none } (by decide) (by decide)
  exact ⟨h1, h2, (h.2.2.2 exStore exCourseData "Life Sciences").1⟩

/-- On the input `"Workload: 0"` the extracted workload is `0`, which lies
outside the storage range `[1, 10]`, yet the stored workload is the default
`5` rather than the nearest bound `1`: a non-positive extracted workload is
treated as absent, not clamped. -/
theorem stored_workload_zero_cex :
    extractWorkload ("Workload: 0".data) = some 0 ∧
    ¬((1 : ℚ) ≤ 0) ∧ storedWorkload 0 = 5 ∧ storedWorkload 0 ≠ 1 ∧
    (exCourseData.reviews.get? 1).map (fun r => r.workload) = some 0 ∧
    ((saveCourseToDb exStore exCourseData "Life Sciences").newReviews.get? 1).map
      (fun r => r.workload) = some 5 := by
  decide

/-- C4 (amended): stored quality and workload are integers clamped into
`[1, 5]` and `[1, 10]`; an out-of-range extracted quality, and an
out-of-range positive workload, are clamped to the nearest bound, while a
non-positive workload is stored as the default 5; every review is stored,
never rejected. -/
theorem stored_bounds_clamp_spec (q w : ℚ) (st : Store) (cd : CourseData) (area : String) :
    (1 ≤ storedQuality q ∧ storedQuality q ≤ 5) ∧
    (1 ≤ storedWorkload w ∧ storedWorkload w ≤ 10) ∧
    (q < 1 → storedQuality q = 1) ∧
    (5 < q → storedQuality q = 5) ∧
    (0 < w → w < 1 → storedWorkload w = 1) ∧
    (10 < w → storedWorkload w = 10) ∧
    (w ≤ 0 → storedWorkload w = 5) ∧
    (saveCourseToDb st cd area).newReviews.length = cd.reviews.length ∧
    (∀ v ∈ (saveCourseToDb st cd area).newReviews,
      1 ≤ v.quality ∧ v.quality ≤ 5 ∧ 1 ≤ v.workload ∧ v.workload ≤ 10) := by
  have hsave := saveRows_fields st cd area
  refine ⟨storedQuality_bounds q, storedWorkload_bounds w,
    fun h => storedQuality_low h, fun h => storedQuality_high h,
    fun h0 h => storedWorkload_low h0 h, fun h => storedWorkload_high h,
    fun h => storedWorkload_absent h, hsave.1, ?_⟩
  intro v hv
  obtain ⟨rd, _, hq, hw⟩ := forall₂_mem_right hsave.2.2 v hv
  rw [hq, hw]
  exact ⟨(storedQuality_bounds rd.quality).1, (storedQuality_bounds rd.quality).2,
    (storedWorkload_bounds rd.workload).1, (storedWorkload_bounds rd.workload).2⟩

theorem stored_bounds_clamp_spec_witness :
    storedQuality (mkRat 1 2) = 1 ∧ storedQuality 6 = 5 ∧
    storedWorkload (mkRat 1 2) = 1 ∧ storedWorkload 12 = 10 ∧
    storedWorkload 0 = 5 ∧
    (1 ≤ (4 : ℤ) ∧ (4 : ℤ) ≤ 5 ∧ 1 ≤ (3 : ℤ) ∧ (3 : ℤ) ≤ 10) := by
  have h1 := stored_bounds_clamp_spec (mkRat 1 2) (mkRat 1 2)
    exStore exCourseData "Life Sciences"
  have h2 := stored_bounds_clamp_spec 6 12 exStore exCourseData "Life Sciences"
  have h3 := stored_bounds_clamp_spec 0 0 exStore exCourseData "Life Sciences"
  refine ⟨h1.2.2.1 (by decide), h2.2.2.2.1 (by decide),
    h1.2.2.2.2.1 (by decide) (by decide), h2.2.2.2.2.2.1 (by decide),
    h3.2.2.2.2.2.2.1 (by decide), ?_⟩
  have hb := h1.2.2.2.2.2.2.2.2
    ⟨2, 2, 4, 3, "nice course overall"⟩ (by decide)
  exact hb

/-! ### The ranking order (C1) -/

theorem rankRel_trans : ∀ a b c : OutRow, rankRel a b → rankRel b c → rankRel a c := by
  intro a b c hab hbc
  rcases hab with h1 | ⟨he1, hq1⟩ <;> rcases hbc with h2 | ⟨he2, hq2⟩
  · exact Or.inl (lt_trans h2 h1)
  · exact Or.inl (by rw [← he2]; exact h1)
  · exact Or.inl (by rw [he1]; exact h2)
  · exact Or.inr ⟨he1.trans he2, le_trans hq2 hq1⟩

theorem rankRel_total : ∀ a b : OutRow, rankRel a b ∨ rankRel b a := by
  intro a b
  rcases lt_trichotomy a.score b.score with h | h | h
  · exact Or.inr (Or.inl h)
  · rcases le_total a.avg_quality b.avg_quality with hq | hq
    · exact Or.inr (Or.inr ⟨h.symm, hq⟩)
    · exact Or.inl (Or.inr ⟨h, hq⟩)
  · exact Or.inl (Or.inl h)

theorem mkRat_7_10 : (mkRat 7 10 : ℚ) = 7/10 := by
  rw [Rat.mkRat_eq_div]; norm_num

theorem mkRat_3_10 : (mkRat 3 10 : ℚ) = 3/10 := by
  rw [Rat.mkRat_eq_div]; norm_num

theorem mkRat_11_1 : (mkRat 11 1 : ℚ) = 11 := by
  rw [Rat.mkRat_eq_div]; norm_num

/-- C1: every `course_stats` group carries the composite score
`avg_quality * 0.7 + (11 - avg_workload) * 0.3`, and the ranked result is
ordered by score descending with ties broken by mean quality descending,
truncated to at most `limit` rows. -/
theorem rank_ordering_spec (st : Store) (area : String) (min_q max_w : ℚ)
    (min_rev limit : ℕ) :
    (∀ g ∈ courseStats st area,
      g.score = g.avg_quality * (7/10) + (11 - g.avg_workload) * (3/10)) ∧
    List.Pairwise (fun A B : OutRow => B.score ≤ A.score ∧
      (A.score = B.score → B.avg_quality ≤ A.avg_quality))
      (rankQuery st area min_q max_w min_rev limit) ∧
    (rankQuery st area min_q max_w min_rev limit).length ≤ limit := by
  refine ⟨?_, ?_, ?_⟩
  · intro g hg
    unfold courseStats at hg
    rw [List.mem_map] at hg
    obtain ⟨k, _, rfl⟩ := hg
    unfold statOf
    simp only
    rw [qadd_eq, qmul_eq, qmul_eq, qsub_eq, mkRat_7_10, mkRat_3_10, mkRat_11_1]
  · haveI : IsTotal OutRow rankRel := ⟨rankRel_total⟩
    haveI : IsTrans OutRow rankRel := ⟨rankRel_trans⟩
    unfold rankQuery
    have hs := List.sorted_insertionSort rankRel
      (((courseStats st area).filter fun g =>
        decide (min_rev ≤ g.review_count ∧ min_q ≤ g.avg_quality ∧
          g.avg_workload ≤ max_w)).map toOutRow)
    have hp : List.Pairwise rankRel
        ((List.insertionSort rankRel
          (((courseStats st area).filter fun g =>
            decide (min_rev ≤ g.review_count ∧ min_q ≤ g.avg_quality ∧
              g.avg_workload ≤ max_w)).map toOutRow)).take limit) :=
      List.Pairwise.sublist (List.take_sublist _ _) hs
    refine hp.imp ?_
    intro A B hAB
    rcases hAB with hlt | ⟨he, hq⟩
    · refine ⟨le_of_lt hlt, ?_⟩
      intro he
      rw [he] at hlt
      exact absurd hlt (lt_irrefl _)
    · exact ⟨le_of_eq he.symm, fun _ => hq⟩
  · unfold rankQuery
    rw [List.length_take]
    exact min_le_left _ _

theorem rank_ordering_spec_witness :
    exGroup.score = exGroup.avg_quality * (7/10) + (11 - exGroup.avg_workload) * (3/10) ∧
    (rankQuery exStore "Historical Analysis" 1 8 1 20).length ≤ 20 :=
  ⟨(rank_ordering_spec exStore "Historical Analysis" 1 8 1 20).1
      exGroup (by decide),
   (rank_ordering_spec exStore "Historical Analysis" 1 8 1 20).2.2⟩

/-! ### The no-reviews fallback branch (C8) -/

/-- The claim fails on the code at two concrete inputs.  First, its trigger
is wrong: with the Life Sciences area holding one course and zero reviews
but the store holding a review elsewhere, the dispatch (which tests the
global review count) runs the ranked query and shows zero rows instead of
the area's one-course zero-field listing.  Second, even on a store with no
reviews at all the fallback branch does not return the listing: its query
is rejected by the engine's binder and the app shows an error with an empty
table, so the zero-review case is presented as an error after all. -/
theorem fallback_requires_empty_store_cex :
    (exStore.courses.filter fun c => c.ge_area = "Life Sciences").length = 1 ∧
    (joinedRows exStore "Life Sciences").length = 0 ∧
    rankApp exStore "Life Sciences" 1 8 1 20 = ⟨[], false⟩ ∧
    rankApp exStoreNoReviews "Historical Analysis" 1 8 1 20 = ⟨[], true⟩ := by
  decide

/-- C8 (amended): an area with zero reviews in a store that holds any review
gets the ranked query, which returns no rows for it; a store with zero
reviews overall triggers the fallback query, whose `ORDER BY dept, number`
names columns absent from its `SELECT DISTINCT` list, so the binder rejects
it and the app reports an error with an empty table — the alphabetical
zero-field course listing is never produced. -/
theorem fallback_error_spec (st : Store) (area : String) (min_q max_w : ℚ)
    (min_rev limit : ℕ) :
    (joinedRows st area = [] → 0 < st.reviews.length →
      rankApp st area min_q max_w min_rev limit = ⟨[], false⟩) ∧
    (st.reviews = [] →
      rankApp st area min_q max_w min_rev limit = ⟨[], true⟩) ∧
    distinctOrderByOK fallbackOrderBy fallbackSelectList = false ∧
    fallbackRun st area limit = Except.error
      "Binder Error: for SELECT DISTINCT, ORDER BY expressions must appear in select list" := by
  refine ⟨?_, ?_, rfl, rfl⟩
  · intro hj hrev
    have hcs : courseStats st area = [] := by
      unfold courseStats groupKeys
      rw [hj]
      rfl
    have hq : rankQuery st area min_q max_w min_rev limit = [] := by
      unfold rankQuery
      rw [hcs]
      simp [List.insertionSort]
    unfold rankApp
    rw [if_pos hrev, hq]
  · intro h
    unfold rankApp
    rw [h]
    rfl

theorem fallback_error_spec_witness :
    rankApp exStore "Life Sciences" 1 8 1 20 = ⟨[], false⟩ ∧
    rankApp exStoreNoReviews "Historical Analysis" 1 8 1 20 = ⟨[], true⟩ :=
  ⟨(fallback_error_spec exStore "Life Sciences" 1 8 1 20).1 (by decide) (by decide),
   (fallback_error_spec exStoreNoReviews "Historical Analysis" 1 8 1 20).2.1 rfl⟩

end GEasy
